import Mathlib

/-!
Verification of the finance subsystem of the projectX repository.

This file gives a shallow embedding, in Lean, of the finance-record data model
and of the operations of `src/models/FinanceRecord.js` and
`src/controllers/financeController.js`:

* `evaluateFormulas` and the pre-save validation hook of the record model;
* `validateReferences` (category and field-name resolution);
* the controller operations `createRecord`, `updateRecord`, `approveRecord`,
  `deleteRecord`, `deleteFieldDefinition`, and the condition matcher
  `passesCondition` together with the required-approver aggregation loop.

Mongo/monoose documents are modelled as Lean structures; the `fields` map of a
record (a JS `Map`) is modelled as an association list with the JS `Map`
access discipline (first matching key; `set` replaces in place or appends).
JavaScript numbers are modelled as rationals; the JS expression evaluation
performed by the `Function` constructor in `evaluateFormulas` is modelled by a
token-level evaluator covering the expression fragment exercised here
(numeric literals, `+ - * /`, parentheses, unary sign, `<`/`>` comparisons and
the conditional operator `?:`).
-/

set_option maxRecDepth 4096

namespace ProjectX

/-- A JavaScript value as stored in documents and produced by evaluation.
`undefined` is JS `undefined`, `vnull` is JS `null`; `obj` is a plain object,
`vmap` a JS `Map` (the representation of a record's `fields` path), and
`arr` an array. -/
inductive Value where
  | num (q : ℚ)
  | str (s : String)
  | bool (b : Bool)
  | vnull
  | undefined
  | obj (entries : List (String × Value))
  | vmap (entries : List (String × Value))
  | arr (elems : List Value)

/-- First-match lookup in an association list, the access discipline of a JS
`Map` (keys are unique in an actual `Map`). -/
def mget (m : List (String × Value)) (k : String) : Option Value :=
  (m.find? (fun p => p.1 = k)).map (fun p => p.2)

/-- JS `Map.has` / Mongo `$exists` on a map key. -/
def mhas (m : List (String × Value)) (k : String) : Bool :=
  (mget m k).isSome

/-- JS `Map.set`: replace the value at the first matching key in place, or
append a new entry. -/
def mset : List (String × Value) → String → Value → List (String × Value)
  | [], k, v => [(k, v)]
  | (k', v') :: rest, k, v =>
    if k' = k then (k, v) :: rest else (k', v') :: mset rest k v

/-- JS truthiness of a value (`if (x)`).  The model carries no NaN, so a
number is truthy iff it is nonzero. -/
def truthy : Value → Bool
  | .num q => q ≠ 0
  | .str s => s ≠ ""
  | .bool b => b
  | .vnull => false
  | .undefined => false
  | .obj _ => true
  | .vmap _ => true
  | .arr _ => true

/-! ## Document structures

The structures carry the schema paths that the embedded operations read or
write.  Schema paths never touched by any embedded operation (`createdBy`,
`approvedBy`, `paidOn`, timestamps, category names, partner contact info)
are omitted. -/

/-- A `FinanceCategory` document (src/models/FinanceCategory.js): only its
identity and owning organization are consulted by the finance core. -/
structure FinanceCategory where
  id : String
  orgId : String
  deriving DecidableEq, Repr

/-- A `Partner` document (src/models/Partner.js): `ptype` embeds the schema
path `type` (`vendor` or `client`). -/
structure Partner where
  id : String
  orgId : String
  ptype : String
  deriving DecidableEq, Repr

/-- A `FinanceFieldDefinition` document (src/models/FinanceFieldDefinition.js).
`ftype` embeds the schema path `type`; `config` is the free-form `Mixed`
object. -/
structure FinanceFieldDefinition where
  id : String
  orgId : String
  name : String
  ftype : String
  expression : Option String
  applicableTo : List String
  config : List (String × Value)

/-- A `FinanceRecord` document (src/models/FinanceRecord.js).  `rtype` embeds
the schema path `type`; `fields` is the name-keyed `Map`; approver identities
(`ObjectId`s) are modelled as strings. -/
structure FinanceRecord where
  id : String
  orgId : String
  rtype : String
  categoryId : Option String
  partnerId : Option String
  status : String
  fields : List (String × Value)
  recurrence : Value
  approvalsRequired : List String
  approvalsGiven : List String

/-- One entry of `user.organizations`. -/
structure Membership where
  orgId : String
  role : String
  deriving DecidableEq, Repr

/-- The authenticated user as seen by the controller (`req.user`). -/
structure User where
  id : String
  organizations : List Membership
  deriving DecidableEq, Repr

/-- One condition entry of an approval rule: a dotted path mapped to a list
of operator/literal pairs (`Object.entries` of the comparison spec). -/
structure CondSpec where
  path : String
  ops : List (String × Value)

/-- A `FinanceApprovalRule` document (src/models/FinanceApprovalRule.js). -/
structure FinanceApprovalRule where
  orgId : String
  conditions : List CondSpec
  requiredApprovers : List String

/-- An HTTP error response `res.status(code).json({ message })`. -/
structure ErrResp where
  code : Nat
  message : String
  deriving DecidableEq, Repr

/-- `isAdmin` (financeController.js lines 11-14). -/
def isAdmin (user : User) (orgId : String) : Bool :=
  match user.organizations.find? (fun m => m.orgId = orgId) with
  | some m => m.role = "admin"
  | none => false

/-- The membership check repeated in each record handler
(`req.user.organizations.find(m => m.orgId.toString() === orgId)`). -/
def isMember (user : User) (orgId : String) : Bool :=
  (user.organizations.find? (fun m => m.orgId = orgId)).isSome

/-! ## Lexing formula expressions

The source substitutes identifiers in the raw expression string with the
regex `\b[a-zA-Z_]\w*\b` and then evaluates the resulting string.  The model
lexes the string into tokens once, substitutes identifier tokens, and
evaluates the token list; on the fragment covered this agrees with the
string-level pipeline. -/

/-- A token of a formula expression string. -/
inductive Tok where
  | num (q : ℚ)
  | ident (s : String)
  | sym (c : Char)
  deriving DecidableEq, Repr

def isWordChar (c : Char) : Bool := c.isAlphanum || c = '_'

def isIdentStart (c : Char) : Bool := c.isAlpha || c = '_'

def digitsToNat (l : List Char) : Nat :=
  l.foldl (fun a c => a * 10 + (c.toNat - '0'.toNat)) 0

/-- Fuel-indexed lexer over the character list of an expression string.
Unlexable characters yield `none` (the `Function` constructor would raise a
`SyntaxError` on them, which the caller wraps into an evaluation error). -/
def lexAux : Nat → List Char → Option (List Tok)
  | 0, _ => none
  | _ + 1, [] => some []
  | n + 1, c :: cs =>
    if c = ' ' then lexAux n cs
    else if isIdentStart c then
      let w := (c :: cs).takeWhile isWordChar
      let rest := (c :: cs).dropWhile isWordChar
      (lexAux n rest).map (fun ts => .ident (String.mk w) :: ts)
    else if c.isDigit then
      let intPart := (c :: cs).takeWhile Char.isDigit
      let rest1 := (c :: cs).dropWhile Char.isDigit
      match rest1 with
      | '.' :: cs2 =>
        let frac := cs2.takeWhile Char.isDigit
        if frac.isEmpty then none
        else
          let rest2 := cs2.dropWhile Char.isDigit
          let q : ℚ := (digitsToNat intPart : ℚ) +
            (digitsToNat frac : ℚ) / ((10 : ℚ) ^ frac.length)
          (lexAux n rest2).map (fun ts => .num q :: ts)
      | _ => (lexAux n rest1).map (fun ts => .num (digitsToNat intPart) :: ts)
    else if c ∈ ['+', '-', '*', '/', '(', ')', '<', '>', '?', ':'] then
      (lexAux n cs).map (fun ts => .sym c :: ts)
    else none

def lexExpr (s : String) : Option (List Tok) :=
  lexAux (s.length + 1) s.data

/-- The identifier substitution of `evaluateFormulas`
(FinanceRecord.js lines 89-98): an identifier bound in the name-to-value map
must be numeric (otherwise the evaluation throws), and an identifier not
bound in the map is replaced by the literal `0`. -/
def substTokens (env : List (String × Value)) (fdName : String) :
    List Tok → Except String (List Tok)
  | [] => .ok []
  | .ident s :: ts =>
    match mget env s with
    | some (.num q) =>
      match substTokens env fdName ts with
      | .ok ts' => .ok (.num q :: ts')
      | .error e => .error e
    | some _ =>
      .error ("Formula field " ++ fdName ++ " references a non-numeric field: " ++ s)
    | none =>
      match substTokens env fdName ts with
      | .ok ts' => .ok (.num 0 :: ts')
      | .error e => .error e
  | t :: ts =>
    match substTokens env fdName ts with
    | .ok ts' => .ok (t :: ts')
    | .error e => .error e

/-! ## The JavaScript expression evaluation of the `Function` constructor

`evaluateFormulas` evaluates the substituted string with
`Function('"use strict";return (' + safeExpr + ')')()` (FinanceRecord.js
line 102).  The model below interprets the token list with JS semantics for
the fragment: numbers, `+ - * /`, unary sign, parentheses, `<`/`>`
comparisons (booleans coerce to 0/1) and the conditional operator.  Division
by zero and both-branch conditional errors, which JS treats differently, are
outside the fragment exercised by any theorem below. -/

/-- A value of the modelled JS expression fragment. -/
inductive JsV where
  | jnum (q : ℚ)
  | jbool (b : Bool)
  deriving DecidableEq, Repr

def jsToNum : JsV → ℚ
  | .jnum q => q
  | .jbool b => if b then 1 else 0

def jsTruthy : JsV → Bool
  | .jnum q => q ≠ 0
  | .jbool b => b

mutual

/-- Primary: numeric literal, parenthesized conditional, unary sign. -/
def parsePrimT : Nat → List Tok → Option (JsV × List Tok)
  | 0, _ => none
  | _ + 1, .num q :: ts => some (.jnum q, ts)
  | n + 1, .sym '(' :: ts =>
    match parseCondT n ts with
    | some (v, .sym ')' :: ts') => some (v, ts')
    | _ => none
  | n + 1, .sym '-' :: ts =>
    (parsePrimT n ts).map (fun p => (.jnum (-(jsToNum p.1)), p.2))
  | n + 1, .sym '+' :: ts =>
    (parsePrimT n ts).map (fun p => (.jnum (jsToNum p.1), p.2))
  | _, _ => none

def parseMulT : Nat → List Tok → Option (JsV × List Tok)
  | 0, _ => none
  | n + 1, ts =>
    match parsePrimT n ts with
    | some (v, ts1) => parseMulRest n v ts1
    | none => none

def parseMulRest : Nat → JsV → List Tok → Option (JsV × List Tok)
  | 0, _, _ => none
  | n + 1, v, .sym '*' :: ts =>
    match parsePrimT n ts with
    | some (w, ts') => parseMulRest n (.jnum (jsToNum v * jsToNum w)) ts'
    | none => none
  | n + 1, v, .sym '/' :: ts =>
    match parsePrimT n ts with
    | some (w, ts') =>
      if jsToNum w = 0 then none
      else parseMulRest n (.jnum (jsToNum v / jsToNum w)) ts'
    | none => none
  | _ + 1, v, ts => some (v, ts)

def parseAddT : Nat → List Tok → Option (JsV × List Tok)
  | 0, _ => none
  | n + 1, ts =>
    match parseMulT n ts with
    | some (v, ts1) => parseAddRest n v ts1
    | none => none

def parseAddRest : Nat → JsV → List Tok → Option (JsV × List Tok)
  | 0, _, _ => none
  | n + 1, v, .sym '+' :: ts =>
    match parseMulT n ts with
    | some (w, ts') => parseAddRest n (.jnum (jsToNum v + jsToNum w)) ts'
    | none => none
  | n + 1, v, .sym '-' :: ts =>
    match parseMulT n ts with
    | some (w, ts') => parseAddRest n (.jnum (jsToNum v - jsToNum w)) ts'
    | none => none
  | _ + 1, v, ts => some (v, ts)

def parseCmpT : Nat → List Tok → Option (JsV × List Tok)
  | 0, _ => none
  | n + 1, ts =>
    match parseAddT n ts with
    | some (v, ts1) => parseCmpRest n v ts1
    | none => none

def parseCmpRest : Nat → JsV → List Tok → Option (JsV × List Tok)
  | 0, _, _ => none
  | n + 1, v, .sym '<' :: ts =>
    match parseAddT n ts with
    | some (w, ts') => parseCmpRest n (.jbool (jsToNum v < jsToNum w)) ts'
    | none => none
  | n + 1, v, .sym '>' :: ts =>
    match parseAddT n ts with
    | some (w, ts') => parseCmpRest n (.jbool (jsToNum w < jsToNum v)) ts'
    | none => none
  | _ + 1, v, ts => some (v, ts)

/-- Conditional operator `c ? a : b`, right associative, lowest precedence. -/
def parseCondT : Nat → List Tok → Option (JsV × List Tok)
  | 0, _ => none
  | n + 1, ts =>
    match parseCmpT n ts with
    | some (c, .sym '?' :: ts2) =>
      match parseCondT n ts2 with
      | some (a, .sym ':' :: ts4) =>
        match parseCondT n ts4 with
        | some (b, ts5) => some (if jsTruthy c then a else b, ts5)
        | none => none
      | _ => none
    | some (c, ts1) => some (c, ts1)
    | none => none

end

/-- Evaluation of a full token list; the whole list must be consumed. -/
def jsEvalTokens (ts : List Tok) : Option JsV :=
  match parseCondT (8 * (ts.length + 1)) ts with
  | some (v, []) => some v
  | _ => none

def jsvToValue : JsV → Value
  | .jnum q => .num q
  | .jbool b => .bool b

/-! ## `evaluateFormulas` (FinanceRecord.js lines 67-111) -/

/-- Name-to-value map of `evaluateFormulas` (lines 74-80): the record's field
entries restricted to names that have a resolved definition.  It is built
once, before any formula is evaluated, so a formula referencing another
formula field sees that field's original value. -/
def nameToValueMap (r : FinanceRecord) (fieldDefs : List FinanceFieldDefinition) :
    List (String × Value) :=
  r.fields.filter (fun p => fieldDefs.any (fun fd => fd.name = p.1))

/-- The loop of `evaluateFormulas` (lines 83-110): for each formula-typed
definition with a non-empty expression, substitute identifiers and evaluate
with the `Function` constructor, storing the result back under the
definition's name.  `env` is the name-to-value map fixed before the loop. -/
def evaluateFormulasGo (env : List (String × Value)) :
    List FinanceFieldDefinition → FinanceRecord → Except String FinanceRecord
  | [], r => .ok r
  | fd :: rest, r =>
    if fd.ftype = "formula" then
      match fd.expression with
      | none => evaluateFormulasGo env rest r
      | some e =>
        if e = "" then evaluateFormulasGo env rest r
        else
          match lexExpr e with
          | none => .error ("Error evaluating formula for field " ++ fd.name)
          | some toks =>
            match substTokens env fd.name toks with
            | .error msg => .error msg
            | .ok toks' =>
              match jsEvalTokens toks' with
              | none => .error ("Error evaluating formula for field " ++ fd.name)
              | some v =>
                evaluateFormulasGo env rest
                  { r with fields := mset r.fields fd.name (jsvToValue v) }
    else evaluateFormulasGo env rest r

/-- `evaluateFormulas(record, fieldDefs)` (FinanceRecord.js lines 67-111). -/
def evaluateFormulas (r : FinanceRecord) (fieldDefs : List FinanceFieldDefinition) :
    Except String FinanceRecord :=
  evaluateFormulasGo (nameToValueMap r fieldDefs) fieldDefs r

/-! ## `validateReferences` and the pre-save hook (FinanceRecord.js 30-62, 114-154) -/

/-- The per-definition applicability loop of `validateReferences`
(lines 49-56): throw at the first definition not applicable to the record's
type. -/
def checkApplicable (rtype : String) : List FinanceFieldDefinition → Except String Unit
  | [] => .ok ()
  | fd :: rest =>
    if fd.applicableTo.contains rtype || fd.applicableTo.contains "both" then
      checkApplicable rtype rest
    else
      .error ("Field \"" ++ fd.name ++ "\" is not applicable to " ++ rtype ++ " records.")

/-- `validateReferences(record)` (FinanceRecord.js lines 30-62).  `cats` and
`defs` stand for the category and field-definition collections; the Mongo
query `find({ orgId, name: { $in: fieldNames } })` is the filter of `defs` by
organization and field-name membership. -/
def validateReferences (cats : List FinanceCategory)
    (defs : List FinanceFieldDefinition) (r : FinanceRecord) :
    Except String (List FinanceFieldDefinition) :=
  match r.categoryId with
  | none => .error "Category not found."
  | some cid =>
    match cats.find? (fun c => c.id = cid) with
    | none => .error "Category not found."
    | some cat =>
      if cat.orgId ≠ r.orgId then
        .error "Category does not belong to the same organization."
      else if r.fields.length > 0 then
        let fieldNames := r.fields.map Prod.fst
        let fieldDefs := defs.filter
          (fun fd => fd.orgId = r.orgId && fieldNames.contains fd.name)
        if fieldDefs.length ≠ fieldNames.length then
          .error "Invalid field definition references (some names not found)."
        else
          match checkApplicable r.rtype fieldDefs with
          | .error e => .error e
          | .ok _ => .ok fieldDefs
      else .ok []

/-- Truthiness of `fd.config && fd.config.isFinalAmount`
(FinanceRecord.js line 124). -/
def isFinalAmountDef (fd : FinanceFieldDefinition) : Bool :=
  match mget fd.config "isFinalAmount" with
  | some v => truthy v
  | none => false

/-- The `pre('save')` hook of the finance-record schema (FinanceRecord.js
lines 114-154): resolve references, evaluate formulas, require exactly one
final-amount definition among the resolved definitions with a numeric value,
and enforce the paid-at-most-total bound when both `total_amount` and
`amount_paid` entries are present. -/
def preSave (cats : List FinanceCategory) (defs : List FinanceFieldDefinition)
    (r : FinanceRecord) : Except String FinanceRecord :=
  match validateReferences cats defs r with
  | .error e => .error e
  | .ok fieldDefs =>
    match (if fieldDefs.length > 0 then evaluateFormulas r fieldDefs else .ok r) with
    | .error e => .error e
    | .ok r1 =>
      match fieldDefs.filter isFinalAmountDef with
      | [finalFd] =>
        match mget r1.fields finalFd.name with
        | some (.num _) =>
          if mhas r1.fields "total_amount" && mhas r1.fields "amount_paid" then
            match mget r1.fields "total_amount", mget r1.fields "amount_paid" with
            | some (.num total), some (.num paid) =>
              if paid > total then .error "Amount paid cannot exceed total amount."
              else .ok r1
            | _, _ => .error "Total amount and amount paid fields must be numeric."
          else .ok r1
        | _ =>
          .error ("The final amount field \"" ++ finalFd.name ++
            "\" must be a numeric value.")
      | _ => .error "Exactly one final amount field (isFinalAmount=true) is required."

/-- Mongoose schema validation that `save()` runs before the user pre-save
hook: required `categoryId`, and the `enum` constraints on `type` and
`status`. -/
def schemaValidate (r : FinanceRecord) : Except String Unit :=
  if r.categoryId.isNone then .error "categoryId is required."
  else if !(["expense", "revenue"].contains r.rtype) then
    .error "type must be expense or revenue."
  else if !(["draft", "pending_approval", "approved", "paid", "completed"].contains
      r.status) then
    .error "invalid status."
  else .ok ()

/-- `record.save()`: schema validation followed by the pre-save hook; the
saved document is the hook's (possibly formula-updated) record. -/
def saveRecord (cats : List FinanceCategory) (defs : List FinanceFieldDefinition)
    (r : FinanceRecord) : Except String FinanceRecord :=
  match schemaValidate r with
  | .error e => .error e
  | .ok _ => preSave cats defs r

/-! ## Condition matching (`passesCondition`, financeController.js 483-520) -/

def isMapVal : Value → Bool
  | .vmap _ => true
  | _ => false

def isNullish : Value → Bool
  | .undefined => true
  | .vnull => true
  | _ => false

/-- JS property access `val[p]` for the values the path walk encounters:
present keys of a plain object; anything else (missing keys, primitives, and
`Map`s, whose entries are not properties) reads as `undefined`.  The walk
never reads a property of `null`/`undefined` because the loop breaks on them
first. -/
def jsGet (v : Value) (k : String) : Value :=
  match v with
  | .obj entries =>
    match entries.find? (fun p => p.1 = k) with
    | some p => p.2
    | none => .undefined
  | _ => .undefined

/-- `Map.get` with an optional key: `get(undefined)` (a missing next path
segment) yields `undefined`. -/
def mapGetJs (v : Value) (k : Option String) : Value :=
  match v, k with
  | .vmap entries, some key =>
    match entries.find? (fun p => p.1 = key) with
    | some p => p.2
    | none => .undefined
  | _, _ => .undefined

/-- JS `path.split('.')`: split the character list at every dot; adjacent
dots produce empty segments, as in JS. -/
def splitDotAux : List Char → List Char → List String
  | [], cur => [String.mk cur.reverse]
  | '.' :: rest, cur => String.mk cur.reverse :: splitDotAux rest []
  | c :: rest, cur => splitDotAux rest (c :: cur)

def splitDot (s : String) : List String :=
  splitDotAux s.data []

/-- The path walk of `passesCondition` (financeController.js lines 491-508):
walk segment by segment; break leaving `undefined`/`null` in place; on a
segment equal to `fields` whose current value has a `Map`-valued `fields`
property, look the segment after the first `fields` occurrence up in that map
and stop. -/
def resolveLoop (parts : List String) : List String → Value → Value
  | [], val => val
  | p :: rest, val =>
    if isNullish val then val
    else if p = "fields" && isMapVal (jsGet val "fields") then
      mapGetJs (jsGet val "fields") (parts.get? (parts.indexOf "fields" + 1))
    else resolveLoop parts rest (jsGet val p)

def resolvePath (path : String) (doc : Value) : Value :=
  resolveLoop (splitDot path) (splitDot path) doc

/-- JS `ToNumber` on a numeric string (trimmed, optional sign, digits with an
optional fraction); other strings read as NaN (`none`).  The empty string
converts to 0. -/
def parseNumStr (s : String) : Option ℚ :=
  let t := ((s.data.dropWhile (fun c => c = ' ')).reverse.dropWhile
    (fun c => c = ' ')).reverse
  if t.isEmpty then some 0
  else
    let (sign, t') : ℚ × List Char :=
      match t with
      | '-' :: r => (-1, r)
      | '+' :: r => (1, r)
      | _ => (1, t)
    if t'.isEmpty || !t'.all (fun c => c.isDigit || c = '.') then none
    else
      let intPart := t'.takeWhile Char.isDigit
      match t'.dropWhile Char.isDigit with
      | [] => some (sign * (digitsToNat intPart : ℚ))
      | '.' :: frac =>
        if frac.all Char.isDigit then
          some (sign * ((digitsToNat intPart : ℚ) +
            (digitsToNat frac : ℚ) / ((10 : ℚ) ^ frac.length)))
        else none
      | _ => none

/-- JS `ToNumber` for the relational operators, with `none` playing NaN.
Plain objects and `Map`s coerce through `ToPrimitive` to non-numeric strings
(`[object Object]`), hence NaN; arrays are approximated as NaN as well (JS
would join their elements), which no theorem below exercises. -/
def toNumJs : Value → Option ℚ
  | .num q => some q
  | .bool b => some (if b then 1 else 0)
  | .vnull => some 0
  | .undefined => none
  | .str s => parseNumStr s
  | .obj _ => none
  | .vmap _ => none
  | .arr _ => none

/-- JS `a > b`: string-to-string comparison is lexicographic, otherwise both
sides convert with `ToNumber` and any NaN makes the comparison false. -/
def jsGtB (a b : Value) : Bool :=
  match a, b with
  | .str x, .str y => y < x
  | _, _ =>
    match toNumJs a, toNumJs b with
    | some x, some y => y < x
    | _, _ => false

/-- JS `a < b`. -/
def jsLtB (a b : Value) : Bool :=
  match a, b with
  | .str x, .str y => x < y
  | _, _ =>
    match toNumJs a, toNumJs b with
    | some x, some y => x < y
    | _, _ => false

/-- JS strict equality `===`: equal only within the same primitive type;
object/array/map comparisons are reference comparisons, which never hold
between a stored document value and a rule literal. -/
def jsStrictEqB (a b : Value) : Bool :=
  match a, b with
  | .num x, .num y => x = y
  | .str x, .str y => x = y
  | .bool x, .bool y => x = y
  | .vnull, .vnull => true
  | .undefined, .undefined => true
  | _, _ => false

/-- One operator check of `passesCondition` (financeController.js lines
511-516): `$gt`, `$lt` and `$eq` must hold of the resolved value; operators
the code does not recognize impose no constraint. -/
def opSatisfied (op : String) (cmpVal val : Value) : Bool :=
  if op = "$gt" then jsGtB val cmpVal
  else if op = "$lt" then jsLtB val cmpVal
  else if op = "$eq" then jsStrictEqB val cmpVal
  else true

/-- One condition entry: resolve the path, then check every operator. -/
def condEntrySatisfied (doc : Value) (c : CondSpec) : Bool :=
  let v := resolvePath c.path doc
  c.ops.all (fun p => opSatisfied p.1 p.2 v)

/-- `passesCondition(conditions, recordDoc)` (financeController.js lines
483-520): every condition entry must be satisfied. -/
def passesCondition (conds : List CondSpec) (doc : Value) : Bool :=
  conds.all (condEntrySatisfied doc)

/-- The dedup push of the rules loop (financeController.js lines 613-617):
append an approver only if not already present. -/
def pushUnique (l : List String) (a : String) : List String :=
  if l.contains a then l else l ++ [a]

/-- The rules loop of `updateRecord` (financeController.js lines 608-619),
starting from the cleared `approvalsRequired`: union, de-duplicated, of the
`requiredApprovers` of every rule that passes against the record document. -/
def collectApprovers (rules : List FinanceApprovalRule) (doc : Value) : List String :=
  rules.foldl
    (fun acc rule =>
      if passesCondition rule.conditions doc then
        rule.requiredApprovers.foldl pushUnique acc
      else acc)
    []

/-- `record.toObject()`: the document view of a record that `passesCondition`
walks.  `fields` remains a `Map`; unset optional references are `null`. -/
def recToDoc (r : FinanceRecord) : Value :=
  .obj
    [("orgId", .str r.orgId),
     ("type", .str r.rtype),
     ("categoryId", match r.categoryId with | some c => .str c | none => .vnull),
     ("partnerId", match r.partnerId with | some p => .str p | none => .vnull),
     ("status", .str r.status),
     ("fields", .vmap r.fields),
     ("recurrence", r.recurrence),
     ("approvalsRequired", .arr (r.approvalsRequired.map .str)),
     ("approvalsGiven", .arr (r.approvalsGiven.map .str))]

/-! ## Controller operations (financeController.js) -/

/-- Request body of `createRecord` (financeController.js lines 341-396).
`none` stands for an absent (or JS-falsy, where the code tests truthiness)
member. -/
structure CreateBody where
  ctype : String
  ccategoryId : Option String
  cstatus : Option String
  cfields : Option (List (String × Value))
  crecurrence : Option Value
  cpartnerId : Option String

/-- The `categoryId` validation of `createRecord` (lines 358-363). -/
def checkCreateCategory (cats : List FinanceCategory) (orgId : String)
    (body : CreateBody) : Except ErrResp Unit :=
  match body.ccategoryId with
  | none => .ok ()
  | some cid =>
    match cats.find? (fun c => c.id = cid) with
    | none => .error ⟨400, "Invalid categoryId."⟩
    | some cat =>
      if cat.orgId ≠ orgId then .error ⟨400, "Invalid categoryId."⟩ else .ok ()

/-- The `partnerId` validation of `createRecord` (lines 366-377): the
expected partner type is `vendor` for expenses and `client` for revenues. -/
def checkCreatePartner (partners : List Partner) (orgId : String)
    (body : CreateBody) : Except ErrResp Unit :=
  match body.cpartnerId with
  | none => .ok ()
  | some pid =>
    match partners.find? (fun p => p.id = pid) with
    | none => .error ⟨400, "Invalid partnerId."⟩
    | some p =>
      if p.orgId ≠ orgId then .error ⟨400, "Invalid partnerId."⟩
      else if p.ptype ≠ (if body.ctype = "expense" then "vendor" else "client") then
        .error ⟨400, "Partner type does not match record type."⟩
      else .ok ()

/-- The document built by `createRecord` (lines 379-387): status defaults to
`approved` when the caller supplies none (or a falsy one), fields default to
an empty map. -/
def newRecordOf (orgId : String) (body : CreateBody) (newId : String) : FinanceRecord :=
  { id := newId
    orgId := orgId
    rtype := body.ctype
    categoryId := body.ccategoryId
    partnerId := body.cpartnerId
    status := (match body.cstatus with
      | some st => if st = "" then "approved" else st
      | none => "approved")
    fields := body.cfields.getD []
    recurrence := body.crecurrence.getD (.obj [])
    approvalsRequired := []
    approvalsGiven := [] }

/-- `createRecord` (financeController.js lines 341-396).  `newId` stands for
the identifier the persistence layer generates; the save runs schema
validation and the pre-save hook. -/
def createRecord (cats : List FinanceCategory) (defs : List FinanceFieldDefinition)
    (partners : List Partner) (orgId : String) (user : User) (body : CreateBody)
    (newId : String) : Except ErrResp FinanceRecord :=
  if !(isMember user orgId) then .error ⟨403, "Not a member of this organization."⟩
  else if !(["expense", "revenue"].contains body.ctype) then
    .error ⟨400, "Invalid record type."⟩
  else
    match checkCreateCategory cats orgId body with
    | .error e => .error e
    | .ok _ =>
      match checkCreatePartner partners orgId body with
      | .error e => .error e
      | .ok _ =>
        match saveRecord cats defs (newRecordOf orgId body newId) with
        | .error _ => .error ⟨500, "Server error"⟩
        | .ok saved => .ok saved

/-- Request body of `updateRecord` (financeController.js lines 526-634).
For `categoryId` and `partnerId` the code distinguishes absent (`undefined`,
outer `none`) from present-but-falsy (inner `none`, association removed);
`type` is only acted on when truthy, `status`, `fields` and `recurrence`
when not `undefined`. -/
structure UpdateBody where
  utype : Option String
  ucategoryId : Option (Option String)
  ustatus : Option String
  ufields : Option (List (String × Value))
  urecurrence : Option Value
  upartnerId : Option (Option String)

/-- The `type` update step of `updateRecord` (lines 542-548). -/
def stepType (body : UpdateBody) (r : FinanceRecord) : Except ErrResp FinanceRecord :=
  match body.utype with
  | none => .ok r
  | some t =>
    if ["expense", "revenue"].contains t then .ok { r with rtype := t }
    else .error ⟨400, "Invalid record type."⟩

/-- The `categoryId` update step of `updateRecord` (lines 551-561). -/
def stepCategory (cats : List FinanceCategory) (orgId : String) (body : UpdateBody)
    (r : FinanceRecord) : Except ErrResp FinanceRecord :=
  match body.ucategoryId with
  | none => .ok r
  | some none => .ok { r with categoryId := none }
  | some (some cid) =>
    match cats.find? (fun c => c.id = cid) with
    | none => .error ⟨400, "Invalid categoryId."⟩
    | some cat =>
      if cat.orgId ≠ orgId then .error ⟨400, "Invalid categoryId."⟩
      else .ok { r with categoryId := some cid }

/-- The `partnerId` update step of `updateRecord` (lines 564-578).  Note the
code compares the partner's type against the record's type directly
(`vendor`/`client` against `expense`/`revenue`). -/
def stepPartner (partners : List Partner) (orgId : String) (body : UpdateBody)
    (r : FinanceRecord) : Except ErrResp FinanceRecord :=
  match body.upartnerId with
  | none => .ok r
  | some none => .ok { r with partnerId := none }
  | some (some pid) =>
    match partners.find? (fun p => p.id = pid) with
    | none => .error ⟨400, "Invalid partnerId."⟩
    | some p =>
      if p.orgId ≠ orgId then .error ⟨400, "Invalid partnerId."⟩
      else if p.ptype ≠ r.rtype && p.ptype ≠ "both" then
        .error ⟨400, "Partner type does not match record type."⟩
      else .ok { r with partnerId := some pid }

/-- The pure status/fields/recurrence updates of `updateRecord`
(lines 581-597), applied in source order. -/
def applyStatusFieldsRecurrence (body : UpdateBody) (r : FinanceRecord) : FinanceRecord :=
  let r4 :=
    match body.ustatus with
    | some st => if st ≠ r.status then { r with status := st } else r
    | none => r
  let r5 :=
    match body.ufields with
    | some fs => { r4 with fields := fs }
    | none => r4
  match body.urecurrence with
  | some rc => { r5 with recurrence := rc }
  | none => r5

/-- The `statusChangedToPendingApproval` flag (lines 581-587): the requested
status is `pending_approval` and differs from the record's current status. -/
def statusChangedToPending (body : UpdateBody) (r : FinanceRecord) : Bool :=
  match body.ustatus with
  | some st => st ≠ r.status && st = "pending_approval"
  | none => false

/-- The approval block of `updateRecord` (lines 600-626): snapshot the
document, clear both approval sets, re-collect required approvers from the
organization's rules, and auto-approve when none are required. -/
def recomputeApprovals (rules : List FinanceApprovalRule) (orgId : String)
    (r : FinanceRecord) : FinanceRecord :=
  let orgRules := rules.filter (fun rule => rule.orgId = orgId)
  let req := collectApprovers orgRules (recToDoc r)
  let r' := { r with approvalsRequired := req, approvalsGiven := [] }
  if req.isEmpty then { r' with status := "approved" } else r'

/-- The reference updates of `updateRecord` (lines 542-578), in source
order: type, then category, then partner. -/
def stepRefUpdates (cats : List FinanceCategory) (partners : List Partner)
    (orgId : String) (body : UpdateBody) (r0 : FinanceRecord) :
    Except ErrResp FinanceRecord :=
  match stepType body r0 with
  | .error e => .error e
  | .ok r1 =>
    match stepCategory cats orgId body r1 with
    | .error e => .error e
    | .ok r2 => stepPartner partners orgId body r2

/-- The body of `updateRecord` once the record has been found (lines
542-633): reference updates, status/fields/recurrence updates, the approval
recomputation when the status changed to `pending_approval`, and the save. -/
def updateRecordCore (cats : List FinanceCategory) (defs : List FinanceFieldDefinition)
    (partners : List Partner) (rules : List FinanceApprovalRule) (orgId : String)
    (body : UpdateBody) (r0 : FinanceRecord) : Except ErrResp FinanceRecord :=
  match stepRefUpdates cats partners orgId body r0 with
  | .error e => .error e
  | .ok r3 =>
    match saveRecord cats defs
      (if statusChangedToPending body r3 &&
          (applyStatusFieldsRecurrence body r3).status = "pending_approval" then
        recomputeApprovals rules orgId (applyStatusFieldsRecurrence body r3)
      else applyStatusFieldsRecurrence body r3) with
    | .error _ => .error ⟨500, "Server error"⟩
    | .ok saved => .ok saved

/-- `updateRecord` (financeController.js lines 526-634). -/
def updateRecord (cats : List FinanceCategory) (defs : List FinanceFieldDefinition)
    (partners : List Partner) (rules : List FinanceApprovalRule)
    (db : List FinanceRecord) (orgId recordId : String) (user : User)
    (body : UpdateBody) : Except ErrResp FinanceRecord :=
  if !(isMember user orgId) then .error ⟨403, "Not a member of this organization."⟩
  else
    match db.find? (fun r => r.id = recordId) with
    | none => .error ⟨404, "Record not found."⟩
    | some r0 =>
      if r0.orgId ≠ orgId then .error ⟨404, "Record not found."⟩
      else updateRecordCore cats defs partners rules orgId body r0

/-- `approveRecord` (financeController.js lines 666-708): only a record in
`pending_approval` can be approved, only by an identity in
`approvalsRequired`; the identity is added to `approvalsGiven` unless already
present, and the record advances to `approved` exactly when every required
approver is in the resulting `approvalsGiven`. -/
def approveRecordCore (cats : List FinanceCategory) (defs : List FinanceFieldDefinition)
    (r : FinanceRecord) (user : User) : Except ErrResp FinanceRecord :=
  if r.status ≠ "pending_approval" then
    .error ⟨400, "Record is not pending approval."⟩
  else if !(r.approvalsRequired.contains user.id) then
    .error ⟨403, "You are not required to approve this record."⟩
  else
    match saveRecord cats defs { r with
      approvalsGiven :=
        if r.approvalsGiven.contains user.id then r.approvalsGiven
        else r.approvalsGiven ++ [user.id]
      status :=
        if r.approvalsRequired.all (fun req =>
            (if r.approvalsGiven.contains user.id then r.approvalsGiven
             else r.approvalsGiven ++ [user.id]).contains req) then "approved"
        else r.status } with
    | .error _ => .error ⟨500, "Server error"⟩
    | .ok saved => .ok saved

/-- `approveRecord` (financeController.js lines 666-708); the per-record part
is `approveRecordCore`. -/
def approveRecord (cats : List FinanceCategory) (defs : List FinanceFieldDefinition)
    (db : List FinanceRecord) (orgId recordId : String) (user : User) :
    Except ErrResp FinanceRecord :=
  if !(isMember user orgId) then .error ⟨403, "Not a member of this organization."⟩
  else
    match db.find? (fun r => r.id = recordId) with
    | none => .error ⟨404, "Record not found."⟩
    | some r =>
      if r.orgId ≠ orgId then .error ⟨404, "Record not found."⟩
      else approveRecordCore cats defs r user

/-- `deleteRecord` (financeController.js lines 637-662):
`findByIdAndDelete(recordId)` removes the matched record from storage before
the organization check, so a mismatched organization still leaves the record
deleted while the caller receives the 404 response.  Returns the resulting
store alongside the response. -/
def deleteRecord (db : List FinanceRecord) (orgId recordId : String) (user : User) :
    List FinanceRecord × Except ErrResp String :=
  if !(isMember user orgId) then
    (db, .error ⟨403, "Not a member of this organization."⟩)
  else
    match db.find? (fun r => r.id = recordId) with
    | none => (db, .error ⟨404, "Record not found or already deleted."⟩)
    | some r =>
      let db' := db.eraseP (fun x => x.id = recordId)
      if r.orgId ≠ orgId then (db', .error ⟨404, "Record not found or already deleted."⟩)
      else (db', .ok "Record deleted successfully.")

/-- `deleteFieldDefinition` (financeController.js lines 307-333).  The in-use
check is `countDocuments({ orgId, [`fields.` + fieldId + ``]: { $exists: true } })`:
it asks whether any record of the organization has a `fields` entry keyed by
the definition's id.  Returns the remaining definitions. -/
def deleteFieldDefinition (defs : List FinanceFieldDefinition)
    (records : List FinanceRecord) (orgId fieldId : String) (user : User) :
    Except ErrResp (List FinanceFieldDefinition) :=
  if !(isAdmin user orgId) then
    .error ⟨403, "Only admins can delete field definitions."⟩
  else
    match defs.find? (fun fd => fd.id = fieldId) with
    | none => .error ⟨404, "Field definition not found."⟩
    | some fd =>
      if fd.orgId ≠ orgId then .error ⟨404, "Field definition not found."⟩
      else
        let usageCount :=
          (records.filter (fun r => r.orgId = orgId && mhas r.fields fieldId)).length
        if usageCount > 0 then
          .error ⟨400, "Cannot delete a field definition in use."⟩
        else .ok (defs.eraseP (fun d => d.id = fieldId))

/-! ## Helper lemmas -/

/-- `evaluateFormulas` only rewrites the `fields` map: every other component
of the record is untouched. -/
theorem evaluateFormulasGo_shape (env : List (String × Value)) :
    ∀ (l : List FinanceFieldDefinition) (r r' : FinanceRecord),
      evaluateFormulasGo env l r = .ok r' → r' = { r with fields := r'.fields } := by
  intro l
  induction l with
  | nil =>
    intro r r' h
    simp only [evaluateFormulasGo] at h
    injection h with h
    subst h
    rfl
  | cons fd rest ih =>
    intro r r' h
    simp only [evaluateFormulasGo] at h
    split at h
    · split at h
      · exact ih _ r' h
      · split at h
        · exact ih _ r' h
        · split at h
          · exact absurd h (by simp)
          · split at h
            · exact absurd h (by simp)
            · split at h
              · exact absurd h (by simp)
              · have hh := ih _ r' h
                exact hh
    · exact ih _ r' h

/-- The pre-save hook only rewrites the `fields` map of a record it
accepts. -/
theorem preSave_shape (cats : List FinanceCategory) (defs : List FinanceFieldDefinition)
    (r r' : FinanceRecord) (h : preSave cats defs r = .ok r') :
    r' = { r with fields := r'.fields } := by
  unfold preSave at h
  split at h
  · exact absurd h (by simp)
  · rename_i fieldDefs _
    split at h
    · exact absurd h (by simp)
    · rename_i r1 heval
      have hr1 : r1 = { r with fields := r1.fields } := by
        split at heval
        · exact evaluateFormulasGo_shape _ _ _ _ heval
        · injection heval with heval
          subst heval
          rfl
      split at h
      · split at h
        · split at h
          · split at h
            · split at h
              · exact absurd h (by simp)
              · injection h with h; subst h; exact hr1
            · exact absurd h (by simp)
          · injection h with h; subst h; exact hr1
        · exact absurd h (by simp)
      · exact absurd h (by simp)

/-- `save()` only rewrites the `fields` map of a record it accepts. -/
theorem saveRecord_shape (cats : List FinanceCategory) (defs : List FinanceFieldDefinition)
    (r r' : FinanceRecord) (h : saveRecord cats defs r = .ok r') :
    r' = { r with fields := r'.fields } := by
  unfold saveRecord at h
  split at h
  · exact absurd h (by simp)
  · exact preSave_shape cats defs r r' h

theorem saveRecord_status (cats : List FinanceCategory) (defs : List FinanceFieldDefinition)
    (r r' : FinanceRecord) (h : saveRecord cats defs r = .ok r') :
    r'.status = r.status := by
  rw [saveRecord_shape cats defs r r' h]

theorem saveRecord_approvals (cats : List FinanceCategory)
    (defs : List FinanceFieldDefinition) (r r' : FinanceRecord)
    (h : saveRecord cats defs r = .ok r') :
    r'.approvalsRequired = r.approvalsRequired ∧ r'.approvalsGiven = r.approvalsGiven := by
  rw [saveRecord_shape cats defs r r' h]
  exact ⟨rfl, rfl⟩

/-- Erasing by a key from a store whose keys are distinct leaves no element
with that key. -/
theorem eraseP_key_not_mem {α β : Type} [DecidableEq β] (f : α → β) (k : β) :
    ∀ l : List α, (l.map f).Nodup →
      ∀ x ∈ l.eraseP (fun a => f a = k), f x ≠ k := by
  intro l
  induction l with
  | nil => intro _ x hx; simp [List.eraseP] at hx
  | cons a l ih =>
    intro hnd x hx
    simp only [List.map_cons, List.nodup_cons] at hnd
    by_cases hak : f a = k
    · have he : List.eraseP (fun a => decide (f a = k)) (a :: l) = l := by
        simp [List.eraseP, hak]
      rw [he] at hx
      intro hxk
      have hmem : f x ∈ List.map f l := List.mem_map.mpr ⟨x, hx, rfl⟩
      rw [hxk, ← hak] at hmem
      exact hnd.1 hmem
    · have he : List.eraseP (fun a => decide (f a = k)) (a :: l) =
        a :: List.eraseP (fun a => decide (f a = k)) l := by
        simp [List.eraseP, hak]
      rw [he] at hx
      rcases hx with _ | hx
      · simpa using hak
      · exact ih hnd.2 x (by assumption)

/-! ## Concrete fixtures used by witnesses and concrete theorems -/

def catOrg1 : FinanceCategory := { id := "c1", orgId := "org1" }

/-- A number-typed definition marked as the final amount, applicable to both
record types. -/
def amountDef : FinanceFieldDefinition :=
  { id := "fd_amount", orgId := "org1", name := "amount", ftype := "number",
    expression := none, applicableTo := ["both"],
    config := [("isFinalAmount", .bool true)] }

/-- A formula definition whose expression references an identifier that no
field of the record resolves. -/
def taxUnresolvedDef : FinanceFieldDefinition :=
  { id := "fd_tax", orgId := "org1", name := "tax", ftype := "formula",
    expression := some "missing_field + 1", applicableTo := ["both"], config := [] }

/-- A formula definition whose expression uses a comparison and the
conditional operator, which are outside the arithmetic grammar the
specification allows. -/
def taxTernaryDef : FinanceFieldDefinition :=
  { id := "fd_tax", orgId := "org1", name := "tax", ftype := "formula",
    expression := some "1<2?100:200", applicableTo := ["both"], config := [] }

/-- A record of `org1` carrying an `amount` and a `tax` field. -/
def baseRec : FinanceRecord :=
  { id := "r1", orgId := "org1", rtype := "expense", categoryId := some "c1",
    partnerId := none, status := "approved",
    fields := [("amount", .num 5), ("tax", .num 0)],
    recurrence := .obj [], approvalsRequired := [], approvalsGiven := [] }

def adminOrg1 : User := { id := "ua", organizations := [{ orgId := "org1", role := "admin" }] }

def memberOrg2 : User := { id := "u2", organizations := [{ orgId := "org2", role := "member" }] }

/-! ## Claim theorems -/

/-- The numeric value stored under a field name, if any. -/
def numAt (r : FinanceRecord) (k : String) : Option ℚ :=
  match mget r.fields k with
  | some (.num q) => some q
  | _ => none

/-- C1: the claim says an unresolved identifier in a formula expression makes
the save fail with an `UnresolvedFieldError` and that a saved record is never
computed with a zero substitution.  The code does the opposite: with the
formula `missing_field + 1`, whose identifier `missing_field` is absent from
the name-to-value lookup, the pre-save hook succeeds and persists
`tax = 0 + 1 = 1`. -/
theorem preSave_substitutes_zero_for_unresolved_identifier :
    mget (nameToValueMap baseRec [amountDef, taxUnresolvedDef]) "missing_field" = none ∧
    ∃ r', preSave [catOrg1] [amountDef, taxUnresolvedDef] baseRec = .ok r' ∧
      numAt r' "tax" = some 1 := by
  refine ⟨rfl, _, rfl, ?_⟩
  norm_num [numAt, mget, mset, baseRec, taxUnresolvedDef, jsvToValue, jsToNum, digitsToNat, List.find?]
  decide

/-- Modelled from the spec: the token alphabet of the dedicated arithmetic
evaluator of §4.3 — identifiers, numeric literals, the operators `+ - * /`,
and parentheses; nothing else. -/
def specArithTok : Tok → Bool
  | .num _ => true
  | .ident _ => true
  | .sym c => c ∈ ['+', '-', '*', '/', '(', ')']

/-- C2: the claim says formula expressions are evaluated by a dedicated
arithmetic evaluator restricted to identifiers, numeric literals, `+ - * /`
and parentheses, so anything else fails with an evaluation error.  The code
instead hands the substituted string to the JavaScript `Function` constructor:
the expression `1<2?100:200`, which is outside the claimed grammar (it lexes
to tokens containing `<`, `?` and `:`), evaluates without error to 100 and is
stored in the record. -/
theorem evaluateFormulas_executes_nonarithmetic_expression :
    (∃ ts, lexExpr "1<2?100:200" = some ts ∧ ts.all specArithTok = false) ∧
    ∃ r', evaluateFormulas baseRec [amountDef, taxTernaryDef] = .ok r' ∧
      numAt r' "tax" = some 100 := by
  refine ⟨⟨_, rfl, rfl⟩, _, rfl, ?_⟩
  norm_num [numAt, mget, mset, baseRec, taxTernaryDef, jsvToValue, jsToNum, jsTruthy, digitsToNat, List.find?]
  decide

/-- C7: the claim says deleting a field definition fails with a
`FieldInUseError` exactly when some record of the organization has a `fields`
entry keyed by the definition's name.  The code's in-use query instead keys
the `fields` map by the definition's id: a record whose `fields` contain the
definition's name (`amount`) but, as always, not its id, does not stop the
deletion, which succeeds. -/
theorem deleteFieldDefinition_deletes_name_referenced_definition :
    deleteFieldDefinition [amountDef] [baseRec] "org1" "fd_amount" adminOrg1 = .ok [] ∧
    baseRec.orgId = "org1" ∧
    mhas baseRec.fields amountDef.name = true ∧
    mhas baseRec.fields amountDef.id = false :=
  ⟨rfl, rfl, rfl, rfl⟩

/-- C10: `deleteRecord` uses `findByIdAndDelete`, which removes the record
from storage before the organization check runs.  When a member of another
organization names an existing record of a different organization, the caller
receives the 404 response and yet the record is gone from the store. -/
theorem deleteRecord_removes_record_on_cross_org_404
    (db : List FinanceRecord) (orgId : String) (user : User) (r : FinanceRecord)
    (hmem : isMember user orgId = true)
    (hfind : db.find? (fun x => x.id = r.id) = some r)
    (hnodup : (db.map (fun x => x.id)).Nodup)
    (horg : r.orgId ≠ orgId) :
    (deleteRecord db orgId r.id user).2 =
      .error ⟨404, "Record not found or already deleted."⟩ ∧
    ∀ x ∈ (deleteRecord db orgId r.id user).1, x.id ≠ r.id := by
  have hd : deleteRecord db orgId r.id user =
      (db.eraseP (fun x => x.id = r.id),
       .error ⟨404, "Record not found or already deleted."⟩) := by
    unfold deleteRecord
    rw [hmem]
    simp only [Bool.not_true, Bool.false_eq_true, if_false, hfind]
    rw [if_pos horg]
  rw [hd]
  exact ⟨rfl, fun x hx => eraseP_key_not_mem (fun z => z.id) r.id db hnodup x hx⟩

/-- Witness for C10: a concrete store `[baseRec]` (owned by `org1`), deleted
through `org2` by a member of `org2`. -/
theorem deleteRecord_removes_record_on_cross_org_404_witness :
    (deleteRecord [baseRec] "org2" baseRec.id memberOrg2).2 =
      .error ⟨404, "Record not found or already deleted."⟩ ∧
    ∀ x ∈ (deleteRecord [baseRec] "org2" baseRec.id memberOrg2).1, x.id ≠ baseRec.id :=
  deleteRecord_removes_record_on_cross_org_404 [baseRec] "org2" memberOrg2 baseRec
    rfl rfl (by simp) (by decide)

/-- Under a passing membership check, a successful lookup and a matching
organization, `approveRecord` reduces to its per-record core. -/
theorem approveRecord_eq_core (cats : List FinanceCategory)
    (defs : List FinanceFieldDefinition) (db : List FinanceRecord)
    (orgId recordId : String) (user : User) (r : FinanceRecord)
    (hmem : isMember user orgId = true)
    (hfind : db.find? (fun x => x.id = recordId) = some r)
    (horg : r.orgId = orgId) :
    approveRecord cats defs db orgId recordId user = approveRecordCore cats defs r user := by
  unfold approveRecord
  rw [hmem]
  simp only [Bool.not_true, Bool.false_eq_true, if_false, hfind]
  rw [if_neg (by simp [horg])]

/-- C3: `approveRecord` succeeds only on a record in `pending_approval` whose
`approvalsRequired` contains the approver; it rejects an identity outside
`approvalsRequired` with the 403 response; the identity is added to
`approvalsGiven` only when not already present (so a second approval by the
same identity does not duplicate the entry); and the saved record's status is
`approved` exactly when every required approver is contained in the resulting
`approvalsGiven` — a set-containment check, independent of the order in which
approvals arrived. -/
theorem approveRecord_approval_aggregation
    (cats : List FinanceCategory) (defs : List FinanceFieldDefinition)
    (db : List FinanceRecord) (orgId recordId : String) (user : User)
    (r : FinanceRecord)
    (hmem : isMember user orgId = true)
    (hfind : db.find? (fun x => x.id = recordId) = some r)
    (horg : r.orgId = orgId) :
    (∀ r', approveRecord cats defs db orgId recordId user = .ok r' →
      r.status = "pending_approval" ∧
      r.approvalsRequired.contains user.id = true ∧
      r'.approvalsGiven =
        (if r.approvalsGiven.contains user.id then r.approvalsGiven
         else r.approvalsGiven ++ [user.id]) ∧
      (r'.status = "approved" ↔ ∀ a ∈ r.approvalsRequired, a ∈ r'.approvalsGiven)) ∧
    (r.status = "pending_approval" →
      r.approvalsRequired.contains user.id = false →
      approveRecord cats defs db orgId recordId user =
        .error ⟨403, "You are not required to approve this record."⟩) := by
  rw [approveRecord_eq_core cats defs db orgId recordId user r hmem hfind horg]
  constructor
  · intro r' h
    unfold approveRecordCore at h
    split at h
    · exact absurd h (by simp)
    · split at h
      · exact absurd h (by simp)
      · rename_i hpend hreq
        split at h
        · exact absurd h (by simp)
        · rename_i saved hsv
          injection h with h
          subst h
          have hst : r.status = "pending_approval" := not_not.mp hpend
          have hcn : r.approvalsRequired.contains user.id = true := by
            simpa using hreq
          have hgiven : saved.approvalsGiven =
              (if r.approvalsGiven.contains user.id then r.approvalsGiven
               else r.approvalsGiven ++ [user.id]) :=
            (saveRecord_approvals _ _ _ _ hsv).2
          have hstatus : saved.status =
              (if r.approvalsRequired.all (fun req =>
                  (if r.approvalsGiven.contains user.id then r.approvalsGiven
                   else r.approvalsGiven ++ [user.id]).contains req) then "approved"
               else r.status) :=
            saveRecord_status _ _ _ _ hsv
          refine ⟨hst, hcn, hgiven, ?_⟩
          rw [hstatus, hgiven]
          by_cases hall : r.approvalsRequired.all (fun req =>
              (if r.approvalsGiven.contains user.id then r.approvalsGiven
               else r.approvalsGiven ++ [user.id]).contains req) = true
          · rw [if_pos hall]
            constructor
            · intro _ a ha
              have := List.all_eq_true.mp hall a ha
              simpa using this
            · intro _
              rfl
          · rw [if_neg hall, hst]
            constructor
            · intro habs
              exact absurd habs (by decide)
            · intro hforall
              exact absurd (List.all_eq_true.mpr (fun a ha => by
                simpa using hforall a ha)) hall
  · intro hpend hnreq
    unfold approveRecordCore
    rw [if_neg (by simp [hpend]), if_pos (by rw [hnreq]; rfl)]

/-- A record of `org1` carrying only the `amount` field. -/
def recSimple : FinanceRecord :=
  { baseRec with fields := [("amount", .num 5)] }

/-- A pending record awaiting approvers `u1`, `u2`. -/
def pendingRec : FinanceRecord :=
  { recSimple with status := "pending_approval", approvalsRequired := ["u1", "u2"] }

def approverU1 : User := { id := "u1", organizations := [{ orgId := "org1", role := "member" }] }

/-- Witness for C3: approving the pending fixture record as `u1` succeeds,
records `u1` in `approvalsGiven`, and the status advances exactly when every
required approver is contained in the result. -/
theorem approveRecord_approval_aggregation_witness :
    pendingRec.status = "pending_approval" ∧
    pendingRec.approvalsRequired.contains approverU1.id = true ∧
    ∃ r', approveRecord [catOrg1] [amountDef] [pendingRec] "org1" "r1" approverU1 = .ok r' ∧
      r'.approvalsGiven =
        (if pendingRec.approvalsGiven.contains approverU1.id then pendingRec.approvalsGiven
         else pendingRec.approvalsGiven ++ [approverU1.id]) ∧
      (r'.status = "approved" ↔ ∀ a ∈ pendingRec.approvalsRequired, a ∈ r'.approvalsGiven) := by
  refine ⟨rfl, rfl, _, rfl, ?_⟩
  exact ((approveRecord_approval_aggregation [catOrg1] [amountDef] [pendingRec]
    "org1" "r1" approverU1 pendingRec rfl rfl rfl).1 _ rfl).2.2

/-- C6: a record accepted by the pre-save hook resolves its field names to a
definition list in which exactly one definition is marked as the final
amount, and the persisted record holds a numeric value under that
definition's name; when the resolved definitions carry zero or several
final-amount marks, or the value under the final-amount name is not a
number, the save is rejected. -/
theorem preSave_final_amount_invariant
    (cats : List FinanceCategory) (defs : List FinanceFieldDefinition)
    (r : FinanceRecord) :
    (∀ r', preSave cats defs r = .ok r' →
      ∃ fds fd, validateReferences cats defs r = .ok fds ∧
        fds.filter isFinalAmountDef = [fd] ∧
        ∃ q, mget r'.fields fd.name = some (.num q)) ∧
    (∀ fds, validateReferences cats defs r = .ok fds →
      (fds.filter isFinalAmountDef).length ≠ 1 →
      ∀ r', preSave cats defs r ≠ .ok r') ∧
    (∀ fds r1 fd, validateReferences cats defs r = .ok fds →
      (if fds.length > 0 then evaluateFormulas r fds else .ok r) = .ok r1 →
      fds.filter isFinalAmountDef = [fd] →
      (∀ q, mget r1.fields fd.name ≠ some (.num q)) →
      ∀ r', preSave cats defs r ≠ .ok r') := by
  refine ⟨?_, ?_, ?_⟩
  · intro r' h
    unfold preSave at h
    split at h
    · exact absurd h (by simp)
    · rename_i fds hv
      split at h
      · exact absurd h (by simp)
      · rename_i r1 he
        split at h
        · rename_i fd hf
          split at h
          · rename_i q hq
            split at h
            · split at h
              · split at h
                · exact absurd h (by simp)
                · injection h with h
                  subst h
                  exact ⟨fds, fd, hv, hf, q, hq⟩
              · exact absurd h (by simp)
            · injection h with h
              subst h
              exact ⟨fds, fd, hv, hf, q, hq⟩
          · exact absurd h (by simp)
        · exact absurd h (by simp)
  · intro fds hv hne r' h
    unfold preSave at h
    simp only [hv] at h
    split at h
    · exact absurd h (by simp)
    · rename_i r1 he
      split at h
      · rename_i fd hf
        exact hne (by rw [hf]; rfl)
      · exact absurd h (by simp)
  · intro fds r1 fd hv he hf hnum r' h
    unfold preSave at h
    simp only [hv, he] at h
    split at h
    · rename_i finalFd heq
      have hfd : finalFd = fd := by
        have h12 := hf.symm.trans heq
        injection h12 with h1 _
        exact h1.symm
      subst hfd
      split at h
      · rename_i q hq
        exact hnum q hq
      · exact absurd h (by simp)
    · exact absurd h (by simp)

/-- Witness for C6: the single-field fixture record saves, resolves to the
definition list `[amountDef]`, whose unique final-amount definition holds the
numeric value 5 on the saved record. -/
theorem preSave_final_amount_invariant_witness :
    ∃ r', preSave [catOrg1] [amountDef] recSimple = .ok r' ∧
      ∃ fds fd, validateReferences [catOrg1] [amountDef] recSimple = .ok fds ∧
        fds.filter isFinalAmountDef = [fd] ∧
        ∃ q, mget r'.fields fd.name = some (.num q) := by
  refine ⟨_, rfl, ?_⟩
  exact (preSave_final_amount_invariant [catOrg1] [amountDef] recSimple).1 _ rfl

/-- C8: a record accepted by the pre-save hook that carries both
`total_amount` and `amount_paid` entries holds numeric values with
paid ≤ total; and a record whose evaluated fields carry both entries without
numeric values satisfying paid ≤ total is rejected. -/
theorem preSave_partial_payment_bound
    (cats : List FinanceCategory) (defs : List FinanceFieldDefinition)
    (r : FinanceRecord) :
    (∀ r', preSave cats defs r = .ok r' →
      mhas r'.fields "total_amount" = true → mhas r'.fields "amount_paid" = true →
      ∃ t p, mget r'.fields "total_amount" = some (.num t) ∧
        mget r'.fields "amount_paid" = some (.num p) ∧ p ≤ t) ∧
    (∀ fds r1, validateReferences cats defs r = .ok fds →
      (if fds.length > 0 then evaluateFormulas r fds else .ok r) = .ok r1 →
      mhas r1.fields "total_amount" = true → mhas r1.fields "amount_paid" = true →
      (¬ ∃ t p, mget r1.fields "total_amount" = some (.num t) ∧
        mget r1.fields "amount_paid" = some (.num p) ∧ p ≤ t) →
      ∀ r', preSave cats defs r ≠ .ok r') := by
  constructor
  · intro r' h htot hpaid
    unfold preSave at h
    split at h
    · exact absurd h (by simp)
    · rename_i fds hv
      split at h
      · exact absurd h (by simp)
      · rename_i r1 he
        split at h
        · rename_i finalFd heqf
          split at h
          · rename_i q hq
            split at h
            · split at h
              · split at h
                · exact absurd h (by simp)
                · rename_i h1 h2 hng
                  injection h with h
                  subst h
                  exact ⟨_, _, h1, h2, not_lt.mp hng⟩
              · exact absurd h (by simp)
            · rename_i hcond
              injection h with h
              subst h
              rw [htot, hpaid] at hcond
              exact absurd rfl hcond
          · exact absurd h (by simp)
        · exact absurd h (by simp)
  · intro fds r1 hv he htot hpaid hne r' h
    unfold preSave at h
    simp only [hv, he] at h
    split at h
    · rename_i finalFd heqf
      split at h
      · rename_i q hq
        split at h
        · split at h
          · rename_i h1 h2
            split at h
            · exact absurd h (by simp)
            · rename_i hng
              exact hne ⟨_, _, h1, h2, not_lt.mp hng⟩
          · exact absurd h (by simp)
        · rename_i hcond
          rw [htot, hpaid] at hcond
          exact absurd rfl hcond
      · exact absurd h (by simp)
    · exact absurd h (by simp)

/-- A number-typed `total_amount` definition of `org1`. -/
def totalDef : FinanceFieldDefinition :=
  { id := "fd_total", orgId := "org1", name := "total_amount", ftype := "number",
    expression := none, applicableTo := ["both"], config := [] }

/-- A number-typed `amount_paid` definition of `org1`. -/
def paidDef : FinanceFieldDefinition :=
  { id := "fd_paid", orgId := "org1", name := "amount_paid", ftype := "number",
    expression := none, applicableTo := ["both"], config := [] }

/-- A record carrying the final amount plus a total of 100 and a paid amount
of 40. -/
def recPartial : FinanceRecord :=
  { baseRec with
    fields := [("amount", .num 5), ("total_amount", .num 100), ("amount_paid", .num 40)] }

/-- Witness for C8: the fixture with total 100 and paid 40 saves, and the
persisted values satisfy the bound. -/
theorem preSave_partial_payment_bound_witness :
    ∃ r', preSave [catOrg1] [amountDef, totalDef, paidDef] recPartial = .ok r' ∧
      ∃ t p, mget r'.fields "total_amount" = some (.num t) ∧
        mget r'.fields "amount_paid" = some (.num p) ∧ p ≤ t := by
  refine ⟨_, rfl, ?_⟩
  exact (preSave_partial_payment_bound [catOrg1] [amountDef, totalDef, paidDef]
    recPartial).1 _ rfl rfl rfl

/-- C9: a created record's status is the caller-supplied one when a truthy
status is provided, and defaults to `approved` (not `draft`, not
`pending_approval`) when none is provided. -/
theorem createRecord_initial_status
    (cats : List FinanceCategory) (defs : List FinanceFieldDefinition)
    (partners : List Partner) (orgId : String) (user : User) (body : CreateBody)
    (newId : String) (r' : FinanceRecord)
    (h : createRecord cats defs partners orgId user body newId = .ok r') :
    r'.status = (match body.cstatus with
      | some st => if st = "" then "approved" else st
      | none => "approved") ∧
    (body.cstatus = none → r'.status = "approved" ∧ r'.status ≠ "draft" ∧
      r'.status ≠ "pending_approval") ∧
    (∀ st, body.cstatus = some st → st ≠ "" → r'.status = st) := by
  have hst : r'.status = (match body.cstatus with
      | some st => if st = "" then "approved" else st
      | none => "approved") := by
    unfold createRecord at h
    split at h
    · exact absurd h (by simp)
    · split at h
      · exact absurd h (by simp)
      · split at h
        · exact absurd h (by simp)
        · split at h
          · exact absurd h (by simp)
          · split at h
            · exact absurd h (by simp)
            · rename_i saved hsv
              injection h with h
              subst h
              exact saveRecord_status _ _ _ _ hsv
  refine ⟨hst, ?_, ?_⟩
  · intro hnone
    rw [hst, hnone]
    exact ⟨rfl, by decide, by decide⟩
  · intro st hsome hne
    rw [hst, hsome]
    simp [hne]

def memberOrg1 : User := { id := "u1", organizations := [{ orgId := "org1", role := "member" }] }

/-- A creation request without a status. -/
def createBodyNoStatus : CreateBody :=
  { ctype := "expense", ccategoryId := some "c1", cstatus := none,
    cfields := some [("amount", .num 5)], crecurrence := none, cpartnerId := none }

/-- Witness for C9: creating a record without a caller-supplied status yields
an `approved` record. -/
theorem createRecord_initial_status_witness :
    ∃ r', createRecord [catOrg1] [amountDef] [] "org1" memberOrg1 createBodyNoStatus "r9" =
        .ok r' ∧ r'.status = "approved" := by
  refine ⟨_, rfl, ?_⟩
  exact ((createRecord_initial_status [catOrg1] [amountDef] [] "org1" memberOrg1
    createBodyNoStatus "r9" _ rfl).2.1 rfl).1

/-! ## Support lemmas for the update-record claims -/

theorem stepType_preserves (body : UpdateBody) (r0 r1 : FinanceRecord)
    (h : stepType body r0 = .ok r1) :
    r1.status = r0.status ∧ r1.approvalsRequired = r0.approvalsRequired ∧
    r1.approvalsGiven = r0.approvalsGiven := by
  unfold stepType at h
  split at h
  · injection h with h; subst h; exact ⟨rfl, rfl, rfl⟩
  · split at h
    · injection h with h; subst h; exact ⟨rfl, rfl, rfl⟩
    · exact absurd h (by simp)

theorem stepCategory_preserves (cats : List FinanceCategory) (orgId : String)
    (body : UpdateBody) (r1 r2 : FinanceRecord)
    (h : stepCategory cats orgId body r1 = .ok r2) :
    r2.status = r1.status ∧ r2.approvalsRequired = r1.approvalsRequired ∧
    r2.approvalsGiven = r1.approvalsGiven := by
  unfold stepCategory at h
  split at h
  · injection h with h; subst h; exact ⟨rfl, rfl, rfl⟩
  · injection h with h; subst h; exact ⟨rfl, rfl, rfl⟩
  · split at h
    · exact absurd h (by simp)
    · split at h
      · exact absurd h (by simp)
      · injection h with h; subst h; exact ⟨rfl, rfl, rfl⟩

theorem stepPartner_preserves (partners : List Partner) (orgId : String)
    (body : UpdateBody) (r2 r3 : FinanceRecord)
    (h : stepPartner partners orgId body r2 = .ok r3) :
    r3.status = r2.status ∧ r3.approvalsRequired = r2.approvalsRequired ∧
    r3.approvalsGiven = r2.approvalsGiven := by
  unfold stepPartner at h
  split at h
  · injection h with h; subst h; exact ⟨rfl, rfl, rfl⟩
  · injection h with h; subst h; exact ⟨rfl, rfl, rfl⟩
  · split at h
    · exact absurd h (by simp)
    · split at h
      · exact absurd h (by simp)
      · split at h
        · exact absurd h (by simp)
        · injection h with h; subst h; exact ⟨rfl, rfl, rfl⟩

/-- The reference-update steps leave status and both approval sets
unchanged. -/
theorem stepRefUpdates_preserves (cats : List FinanceCategory)
    (partners : List Partner) (orgId : String) (body : UpdateBody)
    (r0 r3 : FinanceRecord)
    (h : stepRefUpdates cats partners orgId body r0 = .ok r3) :
    r3.status = r0.status ∧ r3.approvalsRequired = r0.approvalsRequired ∧
    r3.approvalsGiven = r0.approvalsGiven := by
  unfold stepRefUpdates at h
  split at h
  · exact absurd h (by simp)
  · rename_i r1 h1
    split at h
    · exact absurd h (by simp)
    · rename_i r2 h2
      have p1 := stepType_preserves body r0 r1 h1
      have p2 := stepCategory_preserves cats orgId body r1 r2 h2
      have p3 := stepPartner_preserves partners orgId body r2 r3 h
      exact ⟨p3.1.trans (p2.1.trans p1.1), p3.2.1.trans (p2.2.1.trans p1.2.1),
        p3.2.2.trans (p2.2.2.trans p1.2.2)⟩

/-- The status after the pure status/fields/recurrence updates. -/
theorem applySFR_status (body : UpdateBody) (r : FinanceRecord) :
    (applyStatusFieldsRecurrence body r).status =
      (match body.ustatus with
       | some st => if st ≠ r.status then st else r.status
       | none => r.status) := by
  unfold applyStatusFieldsRecurrence
  cases hs : body.ustatus <;> cases hf : body.ufields <;> cases hrc : body.urecurrence <;>
    dsimp only <;>
    first
      | rfl
      | (split <;> rfl)

/-- The pure status/fields/recurrence updates leave both approval sets
unchanged. -/
theorem applySFR_approvals (body : UpdateBody) (r : FinanceRecord) :
    (applyStatusFieldsRecurrence body r).approvalsRequired = r.approvalsRequired ∧
    (applyStatusFieldsRecurrence body r).approvalsGiven = r.approvalsGiven := by
  unfold applyStatusFieldsRecurrence
  cases hs : body.ustatus <;> cases hf : body.ufields <;> cases hrc : body.urecurrence <;>
    dsimp only <;>
    first
      | exact ⟨rfl, rfl⟩
      | (split <;> exact ⟨rfl, rfl⟩)

/-- What the approval block computes: cleared `approvalsGiven`, the
de-duplicated union over the organization's passing rules, and auto-approval
exactly when that union is empty. -/
theorem recomputeApprovals_spec (rules : List FinanceApprovalRule) (orgId : String)
    (r : FinanceRecord) :
    (recomputeApprovals rules orgId r).approvalsGiven = [] ∧
    (recomputeApprovals rules orgId r).approvalsRequired =
      collectApprovers (rules.filter (fun ru => ru.orgId = orgId)) (recToDoc r) ∧
    (recomputeApprovals rules orgId r).status =
      (if collectApprovers (rules.filter (fun ru => ru.orgId = orgId)) (recToDoc r) = []
       then "approved" else r.status) := by
  unfold recomputeApprovals
  by_cases hemp : collectApprovers (rules.filter (fun ru => ru.orgId = orgId))
      (recToDoc r) = []
  · simp [hemp]
  · simp [hemp, List.isEmpty_iff]

/-- Under a passing membership check, a successful lookup and a matching
organization, `updateRecord` reduces to its per-record core. -/
theorem updateRecord_eq_core (cats : List FinanceCategory)
    (defs : List FinanceFieldDefinition) (partners : List Partner)
    (rules : List FinanceApprovalRule) (db : List FinanceRecord)
    (orgId recordId : String) (user : User) (body : UpdateBody) (r0 : FinanceRecord)
    (hmem : isMember user orgId = true)
    (hfind : db.find? (fun x => x.id = recordId) = some r0)
    (horg : r0.orgId = orgId) :
    updateRecord cats defs partners rules db orgId recordId user body =
      updateRecordCore cats defs partners rules orgId body r0 := by
  unfold updateRecord
  rw [hmem]
  simp only [Bool.not_true, Bool.false_eq_true, if_false, hfind]
  rw [if_neg (by simp [horg])]

/-- C4: an update that requests `pending_approval` while the record's status
differs recomputes `approvalsRequired` as the rule-engine union over the
organization's rules against the updated record, clears `approvalsGiven`
unconditionally, and auto-approves exactly when the recomputed set is empty;
an update whose requested status equals the current one leaves both approval
sets untouched. -/
theorem updateRecord_pending_recompute (cats : List FinanceCategory)
    (defs : List FinanceFieldDefinition) (partners : List Partner)
    (rules : List FinanceApprovalRule) (db : List FinanceRecord)
    (orgId recordId : String) (user : User) (body : UpdateBody) (r0 : FinanceRecord)
    (hmem : isMember user orgId = true)
    (hfind : db.find? (fun x => x.id = recordId) = some r0)
    (horg : r0.orgId = orgId) :
    (body.ustatus = some "pending_approval" → r0.status ≠ "pending_approval" →
      ∀ r', updateRecord cats defs partners rules db orgId recordId user body = .ok r' →
      ∃ r3, stepRefUpdates cats partners orgId body r0 = .ok r3 ∧
        r'.approvalsGiven = [] ∧
        r'.approvalsRequired =
          collectApprovers (rules.filter (fun ru => ru.orgId = orgId))
            (recToDoc (applyStatusFieldsRecurrence body r3)) ∧
        (r'.approvalsRequired = [] → r'.status = "approved") ∧
        (r'.approvalsRequired ≠ [] → r'.status = "pending_approval")) ∧
    (∀ st, body.ustatus = some st → st = r0.status →
      ∀ r', updateRecord cats defs partners rules db orgId recordId user body = .ok r' →
        r'.approvalsRequired = r0.approvalsRequired ∧
        r'.approvalsGiven = r0.approvalsGiven) := by
  have hcore := updateRecord_eq_core cats defs partners rules db orgId recordId user
    body r0 hmem hfind horg
  constructor
  · intro hst hneq r' h
    rw [hcore] at h
    unfold updateRecordCore at h
    split at h
    · exact absurd h (by simp)
    · rename_i r3 h3
      have hpres := stepRefUpdates_preserves cats partners orgId body r0 r3 h3
      have hnes : "pending_approval" ≠ r3.status := by
        rw [hpres.1]
        exact fun habs => hneq habs.symm
      have hchanged : statusChangedToPending body r3 = true := by
        unfold statusChangedToPending
        rw [hst]
        simp [hnes]
      have hr6st : (applyStatusFieldsRecurrence body r3).status = "pending_approval" := by
        rw [applySFR_status]
        simp only [hst]
        rw [if_pos hnes]
      have hcond : (statusChangedToPending body r3 &&
          decide ((applyStatusFieldsRecurrence body r3).status = "pending_approval")) = true := by
        rw [hchanged, hr6st]
        simp
      rw [if_pos hcond] at h
      split at h
      · exact absurd h (by simp)
      · rename_i saved hsv
        injection h with h
        subst h
        have hspec := recomputeApprovals_spec rules orgId (applyStatusFieldsRecurrence body r3)
        have happ := saveRecord_approvals _ _ _ _ hsv
        have hsst := saveRecord_status _ _ _ _ hsv
        have hreq : saved.approvalsRequired =
            collectApprovers (rules.filter (fun ru => ru.orgId = orgId))
              (recToDoc (applyStatusFieldsRecurrence body r3)) :=
          happ.1.trans hspec.2.1
        have hstat : saved.status =
            (if collectApprovers (rules.filter (fun ru => ru.orgId = orgId))
                (recToDoc (applyStatusFieldsRecurrence body r3)) = []
             then "approved" else (applyStatusFieldsRecurrence body r3).status) :=
          hsst.trans hspec.2.2
        refine ⟨r3, h3, happ.2.trans hspec.1, hreq, ?_, ?_⟩
        · intro hnil
          rw [hreq] at hnil
          rw [hstat, if_pos hnil]
        · intro hnonnil
          rw [hreq] at hnonnil
          rw [hstat, if_neg hnonnil, hr6st]
  · intro st hstq hsteq r' h
    rw [hcore] at h
    unfold updateRecordCore at h
    split at h
    · exact absurd h (by simp)
    · rename_i r3 h3
      have hpres := stepRefUpdates_preserves cats partners orgId body r0 r3 h3
      have hchanged : statusChangedToPending body r3 = false := by
        unfold statusChangedToPending
        rw [hstq]
        simp [hpres.1, hsteq]
      have hcond : ¬((statusChangedToPending body r3 &&
          decide ((applyStatusFieldsRecurrence body r3).status = "pending_approval")) = true) := by
        rw [hchanged]
        simp
      rw [if_neg hcond] at h
      split at h
      · exact absurd h (by simp)
      · rename_i saved hsv
        injection h with h
        subst h
        have happ := saveRecord_approvals _ _ _ _ hsv
        have hsfr := applySFR_approvals body r3
        exact ⟨happ.1.trans (hsfr.1.trans hpres.2.1),
          happ.2.trans (hsfr.2.trans hpres.2.2)⟩

/-- An update request that only sets the status to `pending_approval`. -/
def bodyPending : UpdateBody :=
  { utype := none, ucategoryId := none, ustatus := some "pending_approval",
    ufields := none, urecurrence := none, upartnerId := none }

/-- Witness for C4: moving the approved fixture record to `pending_approval`
in an organization without approval rules clears both approval sets and
auto-approves. -/
theorem updateRecord_pending_recompute_witness :
    ∃ r', updateRecord [catOrg1] [amountDef] [] [] [recSimple] "org1" "r1"
        memberOrg1 bodyPending = .ok r' ∧
      r'.approvalsGiven = [] ∧ r'.approvalsRequired = [] ∧ r'.status = "approved" := by
  refine ⟨_, rfl, ?_⟩
  obtain ⟨r3, h3, hgiven, hreq, happr, _⟩ :=
    (updateRecord_pending_recompute [catOrg1] [amountDef] [] [] [recSimple]
      "org1" "r1" memberOrg1 bodyPending recSimple rfl rfl rfl).1 rfl (by decide) _ rfl
  have hreqnil : collectApprovers (List.filter (fun ru => decide (ru.orgId = "org1")) [])
      (recToDoc (applyStatusFieldsRecurrence bodyPending r3)) = [] := rfl
  refine ⟨hgiven, hreq.trans hreqnil, happr (hreq.trans hreqnil)⟩

/-! ## Support lemmas for the rule-engine claim -/

theorem foldl_pushUnique_mem (a : String) :
    ∀ (l acc : List String), a ∈ l.foldl pushUnique acc ↔ a ∈ acc ∨ a ∈ l := by
  intro l
  induction l with
  | nil => intro acc; simp
  | cons b l ih =>
    intro acc
    rw [List.foldl_cons, ih]
    unfold pushUnique
    by_cases hb : acc.contains b
    · rw [if_pos hb]
      have hbmem : b ∈ acc := by simpa using hb
      constructor
      · rintro (h | h)
        · exact Or.inl h
        · exact Or.inr (List.mem_cons_of_mem _ h)
      · rintro (h | h)
        · exact Or.inl h
        · rcases List.mem_cons.mp h with rfl | h
          · exact Or.inl hbmem
          · exact Or.inr h
    · rw [if_neg hb]
      simp [List.mem_append, List.mem_cons, or_assoc]

theorem pushUnique_nodup (l : List String) (b : String) (h : l.Nodup) :
    (pushUnique l b).Nodup := by
  unfold pushUnique
  split
  · exact h
  · rename_i hb
    have hbnot : b ∉ l := by simpa using hb
    simp [List.nodup_append, h, hbnot]

theorem foldl_pushUnique_nodup :
    ∀ (l acc : List String), acc.Nodup → (l.foldl pushUnique acc).Nodup := by
  intro l
  induction l with
  | nil => intro acc h; exact h
  | cons b l ih =>
    intro acc h
    rw [List.foldl_cons]
    exact ih (pushUnique acc b) (pushUnique_nodup acc b h)

/-- Membership in the union collected by the rules loop. -/
theorem collectApprovers_mem (rules : List FinanceApprovalRule) (doc : Value)
    (a : String) :
    a ∈ collectApprovers rules doc ↔
      ∃ ru ∈ rules, passesCondition ru.conditions doc = true ∧
        a ∈ ru.requiredApprovers := by
  have key : ∀ (rs : List FinanceApprovalRule) (acc : List String),
      a ∈ rs.foldl (fun acc rule =>
          if passesCondition rule.conditions doc then
            rule.requiredApprovers.foldl pushUnique acc
          else acc) acc ↔
        a ∈ acc ∨ ∃ ru ∈ rs, passesCondition ru.conditions doc = true ∧
          a ∈ ru.requiredApprovers := by
    intro rs
    induction rs with
    | nil => intro acc; simp
    | cons ru rs ih =>
      intro acc
      rw [List.foldl_cons, ih]
      by_cases hp : passesCondition ru.conditions doc = true
      · rw [if_pos hp, foldl_pushUnique_mem]
        constructor
        · rintro ((h | h) | ⟨ru', hru', hp', ha'⟩)
          · exact Or.inl h
          · exact Or.inr ⟨ru, List.mem_cons_self ru rs, hp, h⟩
          · exact Or.inr ⟨ru', List.mem_cons_of_mem _ hru', hp', ha'⟩
        · rintro (h | ⟨ru', hru', hp', ha'⟩)
          · exact Or.inl (Or.inl h)
          · rcases List.mem_cons.mp hru' with rfl | hru'
            · exact Or.inl (Or.inr ha')
            · exact Or.inr ⟨ru', hru', hp', ha'⟩
      · rw [if_neg hp]
        constructor
        · rintro (h | ⟨ru', hru', hp', ha'⟩)
          · exact Or.inl h
          · exact Or.inr ⟨ru', List.mem_cons_of_mem _ hru', hp', ha'⟩
        · rintro (h | ⟨ru', hru', hp', ha'⟩)
          · exact Or.inl h
          · rcases List.mem_cons.mp hru' with rfl | hru'
            · exact absurd hp' hp
            · exact Or.inr ⟨ru', hru', hp', ha'⟩
  simpa using key rules []

/-- The collected approver list is duplicate-free. -/
theorem collectApprovers_nodup (rules : List FinanceApprovalRule) (doc : Value) :
    (collectApprovers rules doc).Nodup := by
  have key : ∀ (rs : List FinanceApprovalRule) (acc : List String), acc.Nodup →
      (rs.foldl (fun acc rule =>
          if passesCondition rule.conditions doc then
            rule.requiredApprovers.foldl pushUnique acc
          else acc) acc).Nodup := by
    intro rs
    induction rs with
    | nil => intro acc h; exact h
    | cons ru rs ih =>
      intro acc h
      rw [List.foldl_cons]
      by_cases hp : passesCondition ru.conditions doc = true
      · rw [if_pos hp]
        exact ih _ (foldl_pushUnique_nodup _ acc h)
      · rw [if_neg hp]
        exact ih _ h
  exact key rules [] List.nodup_nil

/-- Conjunctive reading of `passesCondition`. -/
theorem passesCondition_iff (conds : List CondSpec) (doc : Value) :
    passesCondition conds doc = true ↔
      ∀ c ∈ conds, ∀ p ∈ c.ops, opSatisfied p.1 p.2 (resolvePath c.path doc) = true := by
  unfold passesCondition condEntrySatisfied
  simp [List.all_eq_true]

/-- The JSON-literal values an approval rule's comparison spec can hold. -/
def isLiteral : Value → Bool
  | .num _ => true
  | .str _ => true
  | .bool _ => true
  | .vnull => true
  | _ => false

/-- An unresolved path value satisfies none of the recognized operators. -/
theorem opSatisfied_undef_false (op : String) (cmp : Value)
    (hop : op = "$gt" ∨ op = "$lt" ∨ op = "$eq") (hlit : isLiteral cmp = true) :
    opSatisfied op cmp .undefined = false := by
  rcases hop with rfl | rfl | rfl
  · cases cmp <;> rfl
  · cases cmp <;> rfl
  · cases cmp <;> first
      | rfl
      | exact absurd hlit (by decide)

/-- C5: the required-approver computation is the de-duplicated union of
`requiredApprovers` over exactly the rules whose condition entries are all
satisfied (conjunctive match — a two-condition rule contributes only when
both hold); `$gt`/`$lt` are strict orderings and `$eq` exact equality on
numeric values; and a condition whose dotted path resolves to `undefined`
satisfies no recognized operator, so its rule does not pass. -/
theorem approvalRuleEngine_spec :
    (∀ (rules : List FinanceApprovalRule) (doc : Value) (a : String),
      a ∈ collectApprovers rules doc ↔
        ∃ ru ∈ rules, passesCondition ru.conditions doc = true ∧
          a ∈ ru.requiredApprovers) ∧
    (∀ (rules : List FinanceApprovalRule) (doc : Value),
      (collectApprovers rules doc).Nodup) ∧
    (∀ (conds : List CondSpec) (doc : Value),
      passesCondition conds doc = true ↔
        ∀ c ∈ conds, ∀ p ∈ c.ops,
          opSatisfied p.1 p.2 (resolvePath c.path doc) = true) ∧
    (∀ a b : ℚ,
      opSatisfied "$gt" (.num b) (.num a) = decide (b < a) ∧
      opSatisfied "$lt" (.num b) (.num a) = decide (a < b) ∧
      opSatisfied "$eq" (.num b) (.num a) = decide (a = b)) ∧
    (∀ (conds : List CondSpec) (doc : Value) (c : CondSpec) (op : String) (cmp : Value),
      c ∈ conds → (op, cmp) ∈ c.ops →
      (op = "$gt" ∨ op = "$lt" ∨ op = "$eq") → isLiteral cmp = true →
      resolvePath c.path doc = .undefined →
      passesCondition conds doc = false) := by
  refine ⟨collectApprovers_mem, collectApprovers_nodup, passesCondition_iff,
    fun a b => ⟨rfl, rfl, rfl⟩, ?_⟩
  intro conds doc c op cmp hc hopmem hopk hlit hres
  cases hb : passesCondition conds doc
  · rfl
  · have hall := (passesCondition_iff conds doc).mp hb c hc (op, cmp) hopmem
    rw [hres] at hall
    rw [opSatisfied_undef_false op cmp hopk hlit] at hall
    exact absurd hall (by decide)

/-- A rule requiring approvers for amounts above 10000. -/
def ruleHigh : FinanceApprovalRule :=
  { orgId := "org1",
    conditions := [⟨"fields.amount", [("$gt", .num 10000)]⟩],
    requiredApprovers := ["u1", "u2"] }

/-- A two-condition rule: amount above 10000 and type `revenue`. -/
def ruleTwo : FinanceApprovalRule :=
  { orgId := "org1",
    conditions := [⟨"fields.amount", [("$gt", .num 10000)]⟩,
      ⟨"type", [("$eq", .str "revenue")]⟩],
    requiredApprovers := ["u3"] }

/-- A rule over a field name no record field resolves. -/
def ruleGhost : FinanceApprovalRule :=
  { orgId := "org1",
    conditions := [⟨"fields.ghost", [("$gt", .num 1)]⟩],
    requiredApprovers := ["u4"] }

/-- An expense of 15000. -/
def recBig : FinanceRecord := { baseRec with fields := [("amount", .num 15000)] }

/-- Witness for C5, on an expense of 15000: the amount rule passes and
contributes `u1`; the two-condition rule fails on its second condition
(type is `expense`, not `revenue`), so `u3` is not collected; the rule over
the unresolvable path `fields.ghost` passes neither, so `u4` is not
collected; and the collected list is duplicate-free. -/
theorem approvalRuleEngine_spec_witness :
    "u1" ∈ collectApprovers [ruleHigh, ruleTwo, ruleGhost] (recToDoc recBig) ∧
    ¬("u3" ∈ collectApprovers [ruleHigh, ruleTwo, ruleGhost] (recToDoc recBig)) ∧
    ¬("u4" ∈ collectApprovers [ruleHigh, ruleTwo, ruleGhost] (recToDoc recBig)) ∧
    passesCondition ruleGhost.conditions (recToDoc recBig) = false ∧
    (collectApprovers [ruleHigh, ruleTwo, ruleGhost] (recToDoc recBig)).Nodup := by
  refine ⟨?_, ?_, ?_, ?_, approvalRuleEngine_spec.2.1 _ _⟩
  · exact (approvalRuleEngine_spec.1 _ _ _).mpr
      ⟨ruleHigh, List.mem_cons_self _ _, by decide, by simp [ruleHigh]⟩
  · intro h
    rcases (approvalRuleEngine_spec.1 _ _ _).mp h with ⟨ru, hru, hpass, hmr⟩
    simp only [List.mem_cons, List.not_mem_nil, or_false] at hru
    rcases hru with rfl | rfl | rfl
    · exact absurd hmr (by simp [ruleHigh])
    · exact absurd hpass (by decide)
    · exact absurd hpass (by decide)
  · intro h
    rcases (approvalRuleEngine_spec.1 _ _ _).mp h with ⟨ru, hru, hpass, hmr⟩
    simp only [List.mem_cons, List.not_mem_nil, or_false] at hru
    rcases hru with rfl | rfl | rfl
    · exact absurd hmr (by simp [ruleHigh])
    · exact absurd hmr (by simp [ruleTwo])
    · exact absurd hpass (by decide)
  · exact approvalRuleEngine_spec.2.2.2.2 ruleGhost.conditions (recToDoc recBig)
      ⟨"fields.ghost", [("$gt", .num 1)]⟩ "$gt" (.num 1)
      (by simp [ruleGhost]) (by simp) (Or.inl rfl) rfl rfl

end ProjectX
